import Mathlib

/-!
Verification development for the link-rewrite engine in `src/Affiliate.js`.

The engine is shallowly embedded: JavaScript strings are modelled as `List Char`
(so that all operations are executable and decidable), the `url-parse`
collaborator is modelled for the absolute `scheme://host/path?query` URLs the
engine handles (the parser lowercases scheme and host and recomputes `href`
from the parts, exactly the normalisations exercised here; percent-encoding,
ports, auth and fragments are not exercised by any configuration below), the
`docile` per-element store is modelled as a field on the element record (it is
keyed by element identity in the source), and the logger is modelled as an
event list returned by each operation (an event is produced by `this.log` only
when the `log` flag is set, and unconditionally by a direct call to the `Log`
module).  DOM element collection is outside the model: `traverse` receives the
list of anchor elements the source would collect.
-/

/-- JavaScript strings, modelled as lists of characters. -/
abbrev Str := List Char

namespace Affiliate

/-- Lowercase every character (url-parse lowercases scheme and host). -/
def toLowerStr (l : Str) : Str := l.map Char.toLower

/-- Split a list around the first occurrence of `sep`; `none` when `sep`
does not occur. -/
def splitFirst (sep : Str) : Str → Option (Str × Str)
  | [] => if sep.isPrefixOf ([] : Str) then some ([], []) else none
  | c :: r =>
    if sep.isPrefixOf (c :: r) then some ([], (c :: r).drop sep.length)
    else (splitFirst sep r).map fun p => (c :: p.1, p.2)

/-- JavaScript `String.prototype.replace` with a string pattern: replace the
first occurrence of `sub` (for an empty `sub`, insert at the front), leave the
string unchanged when `sub` does not occur.  Replacement-pattern escapes in the
replacement text (the `$`-forms) are not modelled; no configuration below uses
them. -/
def replaceFirst (sub rep : Str) : Str → Str
  | [] => if sub.isPrefixOf ([] : Str) then rep else []
  | c :: r =>
    if sub.isPrefixOf (c :: r) then rep ++ (c :: r).drop sub.length
    else c :: replaceFirst sub rep r

/-- Does `sub` occur as a contiguous run inside the list? -/
def containsSeq (sub : Str) : Str → Bool
  | [] => sub.isPrefixOf ([] : Str)
  | c :: r => sub.isPrefixOf (c :: r) || containsSeq sub r

/-- Split on the character given first (used for query strings on `&`). -/
def splitAllOn (sep : Char) : Str → List Str
  | [] => [[]]
  | c :: r =>
    if c == sep then [] :: splitAllOn sep r
    else
      match splitAllOn sep r with
      | [] => [[c]]
      | h :: t => (c :: h) :: t

/-- JavaScript object property write: replace the value of an existing key in
place, otherwise append the new pair.  Query mappings and tag `query` objects
are association lists built exclusively through `upsert`, mirroring object
key-insertion-order semantics. -/
def upsert : List (Str × Str) → Str → Str → List (Str × Str)
  | [], k, v => [(k, v)]
  | p :: q, k, v => if p.1 == k then (k, v) :: q else p :: upsert q k v

/-- The object spread `{...q1, ...q2}`: start from `q1` and write every pair
of `q2` over it in order (`Affiliate.js` line 150). -/
def spreadMerge (q1 q2 : List (Str × Str)) : List (Str × Str) :=
  q2.foldl (fun acc p => upsert acc p.1 p.2) q1

/-- Parse a query string (the text after `?`) into an object: split on `&`,
split each nonempty segment at the first `=` (a segment without `=` maps the
whole segment to the empty value), skip empty keys. -/
def parseQueryStr (l : Str) : List (Str × Str) :=
  ((splitAllOn '&' l).filter (fun s => !(s == []))).foldl
    (fun acc seg =>
      match splitFirst ['='] seg with
      | some (k, v) => if k == [] then acc else upsert acc k v
      | none => upsert acc seg []) []

/-- Serialize a query object back to `k=v&k=v` text. -/
def stringifyQuery (q : List (Str × Str)) : Str :=
  List.intercalate ['&'] (q.map fun p => p.1 ++ '=' :: p.2)

/-- The structured URL produced by the `url-parse` collaborator, restricted to
the fields the engine reads and writes. -/
structure URLRec where
  protocol : Str
  host : Str
  pathname : Str
  query : List (Str × Str)
deriving DecidableEq

/-- The `href` of a parsed URL.  In `url-parse` the stored `href` is always
the result of `toString()` (parsing and `set` both recompute it), so it is
modelled as a function of the parts. -/
def serializeURL (u : URLRec) : Str :=
  (if u.protocol == [] && u.host == [] then [] else u.protocol ++ "//".toList ++ u.host)
    ++ u.pathname
    ++ (if u.query == [] then [] else '?' :: stringifyQuery u.query)

/-- `parseURL(s, true)` for the absolute URLs the engine handles: scheme up to
`://` (lowercased, stored with a trailing `:`), host up to `/` or `?`
(lowercased), pathname up to `?`, then the parsed query object.  A string
without `://` degrades to a bare pathname; no configuration below produces
one. -/
def parseURL (s : Str) : URLRec :=
  match splitFirst "://".toList s with
  | none => { protocol := [], host := [], pathname := s, query := [] }
  | some (proto, rest) =>
    let host := rest.takeWhile fun c => !(c == '/' || c == '?')
    let afterHost := rest.dropWhile fun c => !(c == '/' || c == '?')
    let pathname := afterHost.takeWhile fun c => !(c == '?')
    let afterPath := afterHost.dropWhile fun c => !(c == '?')
    { protocol := toLowerStr proto ++ [':']
      host := toLowerStr host
      pathname := pathname
      query := match afterPath with
               | [] => []
               | _ :: qs => parseQueryStr qs }

/-- The per-element provenance record kept in the `docile` store: `was` is the
href recorded at the start of the rewrite that wrote the record, `is` the
string written back by that rewrite. -/
structure Provenance where
  was : Str
  is : Str
deriving DecidableEq

/-- An anchor element: its `href` attribute (a missing attribute is modelled
as the empty string, which the source treats identically — both are falsy) and
its entry in the `docile` per-element store (keyed by element identity in the
source, hence carried on the element here). -/
structure ANode where
  href : Str
  docile : Option Provenance
deriving DecidableEq

/-- One emitted log event: the `isError` flag and the message data. -/
structure LogEv where
  isError : Bool
  msg : Str
deriving DecidableEq

/-- What a tag `modify` function may return: a parsed-URL-shaped value or a
plain string (`returnedURL.href || returnedURL` in the source picks the `href`
of an object and falls through to a plain string). -/
inductive ModifyResult where
  | url (u : URLRec)
  | str (s : Str)

/-- The string the source re-parses after a successful `modify` call. -/
def modifyResultStr : ModifyResult → Str
  | .url u => serializeURL u
  | .str s => s

/-- One `{from, to}` replacement rule (`from` and `to` are reserved words in
Lean, so the fields are named `fromS` and `toS`). -/
structure Repl where
  fromS : Str
  toS : Str
deriving DecidableEq

/-- A normalized tag: host list, query object to merge, replacement rules,
and the optional custom transform, which may fail (a JavaScript `throw` is
modelled as `Except.error`). -/
structure Tag where
  hosts : List Str := []
  query : List (Str × Str) := []
  replace : List Repl := []
  modify : Option (URLRec → Except Str ModifyResult) := none

/-- The normalized engine configuration: the tag list and the `log` flag
(`this.log = config.log ? Log : () => {}`). -/
structure Config where
  tags : List Tag := []
  log : Bool := false

/-- The host filter set built in the constructor: the concatenation of every
tag's `hosts` (`this.#state.hosts = this.#state.hosts.concat(...)`). -/
def hostsOf (tags : List Tag) : List Str :=
  tags.foldl (fun acc t => acc ++ t.hosts) []

/-- The idempotence check opening `#modifyURL`:
`linkData.is && linkData.is === url.href` — a record exists, its `is` is a
nonempty (truthy) string, and it equals the shared parsed URL's `href`. -/
def docileSkip (node : ANode) (url : URLRec) : Bool :=
  match node.docile with
  | some d => !(d.is == []) && d.is == serializeURL url
  | none => false

/-- The `#modifyURL` pipeline.  It receives the shared parsed-URL object and
returns its state on exit (the `set('query', ...)` call mutates the object the
caller holds; the later rebindings of the local `url` variable — to the
re-parsed `modify` result and to the serialized string — do not), together
with the updated element and the emitted log events.  The `modify` exception
is caught locally, so the function is total: no exception propagates.  Note
the catch logs through the `Log` module directly, not through `this.log`, so
that event is emitted regardless of the `log` flag. -/
def modifyURL (logOn : Bool) (url : URLRec) (node : ANode) (tag : Tag) :
    URLRec × ANode × List LogEv :=
  if docileSkip node url then (url, node, [])
  else
    let originalURL := serializeURL url
    let logs1 : List LogEv :=
      if logOn then [⟨false, "Discovered URL: ".toList ++ originalURL⟩] else []
    let url1 : URLRec := { url with query := spreadMerge url.query tag.query }
    let modRes : URLRec × List LogEv :=
      match tag.modify with
      | none => (url1, [])
      | some f =>
        match f url1 with
        | .ok r => (parseURL (modifyResultStr r), [])
        | .error e => (url1, [⟨true, e⟩])
    let written : Str :=
      tag.replace.foldl (fun s r => replaceFirst r.fromS r.toS s) (serializeURL modRes.1)
    (url1, ⟨written, some ⟨originalURL, written⟩⟩, logs1 ++ modRes.2)

/-- One step of the per-tag loop in `traverse`: run `#modifyURL` when the
shared URL's host is in the tag's `hosts`, threading the shared URL object,
the element and the accumulated log events. -/
def traverseStep (logOn : Bool) (acc : URLRec × ANode × List LogEv) (tag : Tag) :
    URLRec × ANode × List LogEv :=
  if tag.hosts.contains acc.1.host then
    let m := modifyURL logOn acc.1 acc.2.1 tag
    (m.1, m.2.1, acc.2.2 ++ m.2.2)
  else acc

/-- The per-element body of `traverse`: skip an empty (or missing) href, parse
it once, reject hosts outside the filter set, then run the per-tag loop over
the tag list in declaration order. -/
def traverseNode (logOn : Bool) (tags : List Tag) (hosts : List Str) (node : ANode) :
    ANode × List LogEv :=
  if node.href == [] then (node, [])
  else
    let url := parseURL node.href
    if !(hosts.contains url.host) then (node, [])
    else
      let r := tags.foldl (traverseStep logOn) (url, node, [])
      (r.2.1, r.2.2)

/-- One step of the per-element loop in `traverse`. -/
def traverseFold (cfg : Config) (acc : List ANode × List LogEv) (n : ANode) :
    List ANode × List LogEv :=
  let t := traverseNode cfg.log cfg.tags (hostsOf cfg.tags) n
  (acc.1 ++ [t.1], acc.2 ++ t.2)

/-- The public `traverse` operation over the collected anchor elements: one
`Traversing DOM...` instance-log event, then the per-element pass (elements do
not interact — the store is keyed per element). -/
def traverse (cfg : Config) (nodes : List ANode) : List ANode × List LogEv :=
  let logs0 : List LogEv :=
    if cfg.log then [⟨false, "Traversing DOM...".toList⟩] else []
  nodes.foldl (traverseFold cfg) ([], logs0)

/-- Mutation record types delivered by the observer. -/
inductive MType where
  | attributes
  | childList
  | characterData
deriving DecidableEq

/-- One mutation record: its type, the changed attribute name, and the target
element as it stands when the callback runs (the source reads the current
`getAttribute('href')` and the current `docile` record). -/
structure MutationRec where
  type : MType
  attributeName : Str
  target : ANode

/-- The `continue` conditions of the observer callback: skip an attribute
record for an attribute other than `href`, and skip an `href` record whose
element has a provenance record with a truthy `is` equal to the current
attribute value. -/
def mutationSkip (m : MutationRec) : Bool :=
  match m.type with
  | .attributes =>
    if !(m.attributeName == "href".toList) then true
    else
      match m.target.docile with
      | some d => !(d.is == []) && d.is == m.target.href
      | none => false
  | _ => false

/-- The callback body for a single mutation record: either skipped (no
traversal, element untouched) or re-traversed (the source calls
`this.traverse(mutations[i].target)`; the target is modelled as a single
anchor element).  The boolean reports whether a traversal was triggered. -/
def processMutation (cfg : Config) (m : MutationRec) : Bool × ANode × List LogEv :=
  if mutationSkip m then (false, m.target, [])
  else
    let t := traverseNode cfg.log cfg.tags (hostsOf cfg.tags) m.target
    (true, t.1, t.2)

/-- One step of the observer callback loop: a skipped record leaves the
`emitted` flag and the logs alone; a processed record logs `DOM Mutation`
through the instance logger if it is the first one, sets the flag, and
re-traverses the target. -/
def observerFold (cfg : Config) (acc : List (Bool × ANode) × List LogEv × Bool)
    (m : MutationRec) : List (Bool × ANode) × List LogEv × Bool :=
  if mutationSkip m then (acc.1 ++ [(false, m.target)], acc.2)
  else
    let emitLog : List LogEv :=
      if !acc.2.2 && cfg.log then [⟨false, "DOM Mutation".toList⟩] else []
    let t := traverseNode cfg.log cfg.tags (hostsOf cfg.tags) m.target
    (acc.1 ++ [(true, t.1)], acc.2.1 ++ emitLog ++ t.2, true)

/-- The whole observer callback over one batch: process the records in order,
emitting the `DOM Mutation` instance-log event only for the first record that
is not skipped (the `emitted` flag). -/
def observerCallback (cfg : Config) (ms : List MutationRec) :
    List (Bool × ANode) × List LogEv :=
  let r := ms.foldl (observerFold cfg) ([], [], false)
  (r.1, r.2.1)

/-!
### Helper lemmas

General facts about the string machinery, the query-object operations and the
pipeline, shared by the claim theorems below.
-/

/-- A list is a Boolean prefix of itself followed by anything. -/
lemma isPrefixOf_self_app (l b : Str) : l.isPrefixOf (l ++ b) = true := by
  induction l with
  | nil => simp [List.isPrefixOf]
  | cons c r ih => simp [List.isPrefixOf, ih]

/-- A Boolean prefix of `X ++ Y` that fits inside `X` is a prefix of `X`. -/
lemma isPrefixOf_of_append (sub X Y : Str) (h : sub.isPrefixOf (X ++ Y) = true)
    (hl : sub.length ≤ X.length) : sub.isPrefixOf X = true := by
  induction sub generalizing X with
  | nil => simp [List.isPrefixOf]
  | cons c r ih =>
    cases X with
    | nil => simp at hl
    | cons x xs =>
      simp only [List.cons_append, List.isPrefixOf, Bool.and_eq_true] at h ⊢
      exact ⟨h.1, ih xs h.2 (by simpa using hl)⟩

/-- `replaceFirst` leaves a string without any occurrence of the pattern
unchanged. -/
lemma replaceFirst_of_not_contains (sub rep s : Str) (h : containsSeq sub s = false) :
    replaceFirst sub rep s = s := by
  induction s with
  | nil =>
    simp only [containsSeq] at h
    simp [replaceFirst, h]
  | cons c r ih =>
    simp only [containsSeq, Bool.or_eq_false_iff] at h
    simp [replaceFirst, h.1, ih h.2]

/-- When the first occurrence of `sub` starts at position `a.length` (no
occurrence starts earlier), `replaceFirst` substitutes exactly that occurrence
and copies the rest — in particular any further occurrence inside `b` is left
alone. -/
lemma replaceFirst_first_occ (sub rep a b : Str) (hsub : sub ≠ [])
    (h : ∀ i, i < a.length → sub.isPrefixOf ((a ++ sub ++ b).drop i) = false) :
    replaceFirst sub rep (a ++ sub ++ b) = a ++ rep ++ b := by
  induction a with
  | nil =>
    obtain ⟨c, cs, rfl⟩ : ∃ c cs, sub = c :: cs := by
      cases sub with
      | nil => exact absurd rfl hsub
      | cons c cs => exact ⟨c, cs, rfl⟩
    have hp : (c :: cs).isPrefixOf ((c :: cs) ++ b) = true := isPrefixOf_self_app _ _
    have hd : ((c :: cs) ++ b).drop (c :: cs).length = b := List.drop_left _ _
    simp only [List.nil_append, List.cons_append] at hp hd ⊢
    simp [replaceFirst, hp, hd]
  | cons x a' ih =>
    have hnp : sub.isPrefixOf (x :: (a' ++ (sub ++ b))) = false := by
      have h0 := h 0 (by simp)
      simpa using h0
    have hih : replaceFirst sub rep (a' ++ sub ++ b) = a' ++ rep ++ b := by
      refine ih fun i hi => ?_
      have := h (i + 1) (by simpa using Nat.succ_lt_succ hi)
      simpa using this
    simp only [List.cons_append, List.append_assoc] at hih ⊢
    simp [replaceFirst, hnp, hih]

/-- Looking up the key just written by `upsert` yields the written value. -/
lemma lookup_upsert_self (q : List (Str × Str)) (k v : Str) :
    List.lookup k (upsert q k v) = some v := by
  induction q with
  | nil => simp [upsert, List.lookup]
  | cons p q ih =>
    by_cases hpk : p.1 = k
    · simp [upsert, hpk, List.lookup]
    · have h1 : (p.1 == k) = false := beq_eq_false_iff_ne.mpr hpk
      have h2 : (k == p.1) = false := beq_eq_false_iff_ne.mpr (Ne.symm hpk)
      simp [upsert, h1, List.lookup, h2, ih]

/-- `upsert` of one key does not disturb lookups of a different key. -/
lemma lookup_upsert_ne (q : List (Str × Str)) (k k' v : Str) (h : (k == k') = false) :
    List.lookup k (upsert q k' v) = List.lookup k q := by
  induction q with
  | nil => simp [upsert, List.lookup, h]
  | cons p q ih =>
    by_cases hpk : p.1 = k'
    · subst hpk
      simp [upsert, List.lookup, h, beq_self_eq_true]
    · have h1 : (p.1 == k') = false := beq_eq_false_iff_ne.mpr hpk
      simp [upsert, h1, List.lookup, ih]

/-- A key held by no pair of the association list looks up to `none`. -/
lemma lookup_eq_none_of_keys (q : List (Str × Str)) (k : Str)
    (h : ∀ p ∈ q, p.1 ≠ k) : List.lookup k q = none := by
  induction q with
  | nil => rfl
  | cons p q ih =>
    have h1 : (k == p.1) = false :=
      beq_eq_false_iff_ne.mpr (Ne.symm (h p (List.mem_cons_self p q)))
    simp only [List.lookup, h1, cond_false]
    exact ih fun r hr => h r (List.mem_cons_of_mem p hr)

/-- A key absent from the spread source keeps its value from the spread
target: `{...q1, ...q2}` preserves `q1` entries for keys `q2` does not hold. -/
lemma lookup_spreadMerge_none (q1 q2 : List (Str × Str)) (k : Str)
    (h : List.lookup k q2 = none) :
    List.lookup k (spreadMerge q1 q2) = List.lookup k q1 := by
  induction q2 generalizing q1 with
  | nil => simp [spreadMerge]
  | cons p q2' ih =>
    simp only [List.lookup] at h
    cases hk : k == p.1 with
    | true => simp [hk] at h
    | false =>
      rw [hk] at h
      simp only [cond_false] at h
      have hm : spreadMerge q1 (p :: q2') = spreadMerge (upsert q1 p.1 p.2) q2' := by
        simp [spreadMerge]
      rw [hm, ih _ h, lookup_upsert_ne _ _ _ _ hk]

/-- A key held by the spread source wins in `{...q1, ...q2}` (for an object,
whose keys are distinct by construction). -/
lemma lookup_spreadMerge_some (q1 q2 : List (Str × Str)) (k v : Str)
    (hnd : (q2.map Prod.fst).Nodup)
    (h : List.lookup k q2 = some v) :
    List.lookup k (spreadMerge q1 q2) = some v := by
  induction q2 generalizing q1 with
  | nil => simp [List.lookup] at h
  | cons p q2' ih =>
    have hm : spreadMerge q1 (p :: q2') = spreadMerge (upsert q1 p.1 p.2) q2' := by
      simp [spreadMerge]
    simp only [List.map_cons, List.nodup_cons] at hnd
    simp only [List.lookup] at h
    cases hk : k == p.1 with
    | true =>
      rw [hk] at h
      simp only [cond_true, Option.some.injEq] at h
      subst h
      have hkp : k = p.1 := eq_of_beq hk
      have hnone : List.lookup k q2' = none := by
        refine lookup_eq_none_of_keys _ _ fun r hr => ?_
        rw [hkp]
        intro hre
        exact hnd.1 (hre ▸ List.mem_map_of_mem Prod.fst hr)
      rw [hm, lookup_spreadMerge_none _ _ _ hnone, hkp, lookup_upsert_self]
    | false =>
      rw [hk] at h
      simp only [cond_false] at h
      rw [hm]
      exact ih _ hnd.2 h

/-- A skipped element (`linkData.is && linkData.is === url.href`) makes
`#modifyURL` return with nothing changed and nothing logged. -/
lemma modifyURL_skip (logOn : Bool) (url : URLRec) (node : ANode) (tag : Tag)
    (h : docileSkip node url = true) :
    modifyURL logOn url node tag = (url, node, []) := by
  simp [modifyURL, h]

/-- A skipped element passes through one step of the per-tag loop
unchanged. -/
lemma traverseStep_skip (logOn : Bool) (url : URLRec) (node : ANode) (tag : Tag)
    (h : docileSkip node url = true) (l : List LogEv) :
    traverseStep logOn (url, node, l) tag = (url, node, l) := by
  unfold traverseStep
  by_cases hc : tag.hosts.contains (url, node, l).1.host = true
  · rw [if_pos hc]
    simp [modifyURL_skip logOn url node tag h]
  · rw [if_neg hc]

/-- A skipped element passes through the whole per-tag loop unchanged. -/
lemma foldl_traverseStep_skip (logOn : Bool) (url : URLRec) (node : ANode)
    (h : docileSkip node url = true) (tags : List Tag) (l : List LogEv) :
    tags.foldl (traverseStep logOn) (url, node, l) = (url, node, l) := by
  induction tags with
  | nil => rfl
  | cons t ts ih =>
    rw [List.foldl_cons, traverseStep_skip logOn url node t h l, ih]

/-- When the idempotence check does not fire, `#modifyURL` stores a fresh
provenance record whose `was` is the href as it stood at the start of this
call and whose `is` is the string written back. -/
lemma modifyURL_not_skipped (logOn : Bool) (url : URLRec) (node : ANode) (tag : Tag)
    (h : docileSkip node url = false) :
    (modifyURL logOn url node tag).2.1.docile =
      some ⟨serializeURL url, (modifyURL logOn url node tag).2.1.href⟩ := by
  simp [modifyURL, h]

/-- With the instance logger disabled and no `modify` function, `#modifyURL`
emits no log event. -/
lemma modifyURL_logs_modify_none (url : URLRec) (node : ANode) (tag : Tag)
    (hm : tag.modify = none) :
    (modifyURL false url node tag).2.2 = [] := by
  by_cases h : docileSkip node url
  · simp [modifyURL, h]
  · simp [modifyURL, h, hm]

/-- One step of the per-tag loop adds no log event when the instance logger
is disabled and the tag has no `modify` function. -/
lemma traverseStep_logs (t : Tag) (hmt : t.modify = none)
    (acc : URLRec × ANode × List LogEv) :
    (traverseStep false acc t).2.2 = acc.2.2 := by
  unfold traverseStep
  by_cases hc : t.hosts.contains acc.1.host = true
  · rw [if_pos hc]
    simp [modifyURL_logs_modify_none _ _ _ hmt]
  · rw [if_neg hc]

/-- The per-tag loop as a whole adds no log event under the same
conditions. -/
lemma foldl_traverseStep_logs (tags : List Tag) (hm : ∀ t ∈ tags, t.modify = none) :
    ∀ (acc : URLRec × ANode × List LogEv),
      (tags.foldl (traverseStep false) acc).2.2 = acc.2.2 := by
  induction tags with
  | nil => intro acc; rfl
  | cons t ts ih =>
    intro acc
    rw [List.foldl_cons, ih fun u hu => hm u (List.mem_cons_of_mem t hu)]
    exact traverseStep_logs t (hm t (List.mem_cons_self t ts)) acc

/-- The per-element pass emits no log event when the instance logger is
disabled and no tag has a `modify` function. -/
lemma traverseNode_logs_nil (tags : List Tag) (hosts : List Str) (node : ANode)
    (hm : ∀ t ∈ tags, t.modify = none) :
    (traverseNode false tags hosts node).2 = [] := by
  unfold traverseNode
  split
  · rfl
  · dsimp only
    split
    · rfl
    · exact foldl_traverseStep_logs tags hm _

/-- An element whose provenance `is` equals its current href, when that href
re-parses to itself, passes through the per-element pass unchanged: every tag
is skipped by the idempotence check. -/
lemma traverseNode_noop (logOn : Bool) (tags : List Tag) (hosts : List Str)
    (node : ANode) (d : Provenance) (hd : node.docile = some d) (hi : d.is = node.href)
    (hne : node.href ≠ []) (hstable : serializeURL (parseURL node.href) = node.href) :
    (traverseNode logOn tags hosts node).1 = node := by
  have hskip : docileSkip node (parseURL node.href) = true := by
    simp only [docileSkip, hd, hstable, hi]
    simp [beq_eq_false_iff_ne.mpr hne]
  unfold traverseNode
  rw [if_neg (by simp [hne])]
  dsimp only
  split
  · rfl
  · rw [foldl_traverseStep_skip logOn (parseURL node.href) node hskip tags []]

/-- An element whose parsed host is outside the filter set passes through the
per-element pass unchanged. -/
lemma traverseNode_host_missed (logOn : Bool) (tags : List Tag) (hosts : List Str)
    (node : ANode) (h : hosts.contains (parseURL node.href).host = false) :
    (traverseNode logOn tags hosts node).1 = node := by
  unfold traverseNode
  split
  · rfl
  · dsimp only
    rw [if_pos (show (!hosts.contains (parseURL node.href).host) = true by rw [h]; rfl)]

/-- The per-element loop of `traverse` adds no log event when the instance
logger is disabled and no tag has a `modify` function. -/
lemma foldl_traverseFold_logs (cfg : Config) (hlog : cfg.log = false)
    (hm : ∀ t ∈ cfg.tags, t.modify = none) :
    ∀ (nodes : List ANode) (acc : List ANode × List LogEv),
      (nodes.foldl (traverseFold cfg) acc).2 = acc.2 := by
  intro nodes
  induction nodes with
  | nil => intro acc; rfl
  | cons n ns ih =>
    intro acc
    rw [List.foldl_cons, ih]
    show acc.2 ++ (traverseNode cfg.log cfg.tags (hostsOf cfg.tags) n).2 = acc.2
    rw [hlog, traverseNode_logs_nil _ _ _ hm, List.append_nil]

/-- The observer callback loop adds no log event under the same conditions. -/
lemma foldl_observerFold_logs (cfg : Config) (hlog : cfg.log = false)
    (hm : ∀ t ∈ cfg.tags, t.modify = none) :
    ∀ (ms : List MutationRec) (acc : List (Bool × ANode) × List LogEv × Bool),
      (ms.foldl (observerFold cfg) acc).2.1 = acc.2.1 := by
  intro ms
  induction ms with
  | nil => intro acc; rfl
  | cons m ms' ih =>
    intro acc
    rw [List.foldl_cons, ih]
    unfold observerFold
    split
    · rfl
    · show acc.2.1 ++ (if (!acc.2.2 && cfg.log) = true then _ else []) ++
        (traverseNode cfg.log cfg.tags (hostsOf cfg.tags) m.target).2 = acc.2.1
      rw [hlog, traverseNode_logs_nil _ _ _ hm]
      simp

/-- A tag whose `modify` always throws produces exactly the shared-URL state
and element state of the same tag without any `modify` function: the query
merge, the replacement rules and the write-back all still happen, on the URL
as it stood before the failed step. -/
lemma modifyURL_throwing_eq (logOn : Bool) (url : URLRec) (node : ANode) (tag : Tag)
    (f : URLRec → Except Str ModifyResult) (hm : tag.modify = some f)
    (hthrow : ∀ u, ∃ e, f u = Except.error e) :
    (modifyURL logOn url node tag).1 =
      (modifyURL logOn url node ⟨tag.hosts, tag.query, tag.replace, none⟩).1 ∧
    (modifyURL logOn url node tag).2.1 =
      (modifyURL logOn url node ⟨tag.hosts, tag.query, tag.replace, none⟩).2.1 := by
  by_cases h : docileSkip node url
  · rw [modifyURL_skip logOn url node tag h, modifyURL_skip logOn url node _ h]
    exact ⟨rfl, rfl⟩
  · obtain ⟨e, he⟩ := hthrow { url with query := spreadMerge url.query tag.query }
    rw [Bool.not_eq_true] at h
    constructor
    · simp [modifyURL, h, hm, he]
    · simp [modifyURL, h, hm, he]

/-!
### Claim theorems
-/

/-- Claim C1, counterexample.  The spec expects the two matching tags to
compose and produce `http://shop.example/x?ref=B`; on the code, the final
href is `http://shop.example/x?ref=A` and not `...?ref=B`: after the first
tag's query merge mutates the shared parsed-URL object in place, the stored
`is` equals the shared object's `href`, so the second tag returns at the
idempotence check and its `replace` rule never runs. -/
theorem c1_counterexample :
    (traverse
      { tags := [{ hosts := ["shop.example".toList], query := [("ref".toList, "A".toList)] },
                 { hosts := ["shop.example".toList],
                   replace := [⟨"ref=A".toList, "ref=B".toList⟩] }], log := false }
      [⟨"http://shop.example/x".toList, none⟩]).1.map ANode.href =
      ["http://shop.example/x?ref=A".toList] ∧
    ¬ (traverse
      { tags := [{ hosts := ["shop.example".toList], query := [("ref".toList, "A".toList)] },
                 { hosts := ["shop.example".toList],
                   replace := [⟨"ref=A".toList, "ref=B".toList⟩] }], log := false }
      [⟨"http://shop.example/x".toList, none⟩]).1.map ANode.href =
      ["http://shop.example/x?ref=B".toList] := by
  constructor
  · decide
  · decide

/-- Claim C1, amended.  In the multi-tag scenario only the first matching tag
is applied: `traverse` leaves the link with href
`http://shop.example/x?ref=A` and a provenance record `was` =
`http://shop.example/x`, `is` = `http://shop.example/x?ref=A`; the second
tag is skipped by the idempotence check against the shared parsed URL. -/
theorem c1_multi_tag_actual :
    (traverse
      { tags := [{ hosts := ["shop.example".toList], query := [("ref".toList, "A".toList)] },
                 { hosts := ["shop.example".toList],
                   replace := [⟨"ref=A".toList, "ref=B".toList⟩] }], log := false }
      [⟨"http://shop.example/x".toList, none⟩]).1 =
    [⟨"http://shop.example/x?ref=A".toList,
      some ⟨"http://shop.example/x".toList, "http://shop.example/x?ref=A".toList⟩⟩] := by
  decide

/-- Claim C2, counterexample.  A link rewritten by two tags in sequence ends
with `was` = `http://a.example/p?ref=A` — an intermediate value — and not the
original pre-engine href `http://a.example/p`: the second rewrite overwrites
`was` with the URL as it stood at the start of that rewrite.  (The first tag's
`replace` rule desynchronises the written href from the shared URL, so the
second tag is not skipped and the link really is rewritten twice.) -/
theorem c2_counterexample :
    (traverse
      { tags := [{ hosts := ["a.example".toList], query := [("ref".toList, "A".toList)],
                   replace := [⟨"ref=A".toList, "ref=Z".toList⟩] },
                 { hosts := ["a.example".toList], query := [("ref".toList, "B".toList)] }],
        log := false }
      [⟨"http://a.example/p".toList, none⟩]).1 =
    [⟨"http://a.example/p?ref=B".toList,
      some ⟨"http://a.example/p?ref=A".toList, "http://a.example/p?ref=B".toList⟩⟩] ∧
    ¬ ("http://a.example/p?ref=A".toList = "http://a.example/p".toList) := by
  constructor
  · decide
  · decide

/-- Claim C2, amended.  On every rewrite that passes the idempotence check —
including a subsequent rewrite of a link that already has a provenance
record — the record is replaced whole: `was` becomes the href as it stood at
the start of that rewrite (the shared parsed URL's current serialization),
not the value preserved from the original record. -/
theorem c2_provenance_was_overwritten (logOn : Bool) (url : URLRec) (node : ANode)
    (tag : Tag) (d : Provenance) (_hd : node.docile = some d)
    (h : docileSkip node url = false) :
    (modifyURL logOn url node tag).2.1.docile =
      some ⟨serializeURL url, (modifyURL logOn url node tag).2.1.href⟩ :=
  modifyURL_not_skipped logOn url node tag h

/-- Claim C2, witness for the amended theorem at a concrete input: a node
carrying a provenance record from an earlier rewrite is rewritten again and
its `was` becomes the current call's starting href. -/
theorem c2_provenance_was_overwritten_witness :
    docileSkip ⟨"http://s/x?ref=Z".toList, some ⟨"http://s/x".toList, "http://s/x?ref=Z".toList⟩⟩
        (parseURL "http://s/x?ref=A".toList) = false ∧
    (modifyURL false (parseURL "http://s/x?ref=A".toList)
        ⟨"http://s/x?ref=Z".toList, some ⟨"http://s/x".toList, "http://s/x?ref=Z".toList⟩⟩
        ⟨["s".toList], [("ref".toList, "B".toList)], [], none⟩).2.1.docile =
      some ⟨serializeURL (parseURL "http://s/x?ref=A".toList),
        (modifyURL false (parseURL "http://s/x?ref=A".toList)
          ⟨"http://s/x?ref=Z".toList, some ⟨"http://s/x".toList, "http://s/x?ref=Z".toList⟩⟩
          ⟨["s".toList], [("ref".toList, "B".toList)], [], none⟩).2.1.href⟩ :=
  ⟨by decide,
   c2_provenance_was_overwritten false (parseURL "http://s/x?ref=A".toList)
     ⟨"http://s/x?ref=Z".toList, some ⟨"http://s/x".toList, "http://s/x?ref=Z".toList⟩⟩
     ⟨["s".toList], [("ref".toList, "B".toList)], [], none⟩
     ⟨"http://s/x".toList, "http://s/x?ref=Z".toList⟩ rfl (by decide)⟩

/-- Claim C3, counterexample.  Applying the pipeline twice is not always a
no-op: a `replace` rule whose output does not survive re-parsing (here it
uppercases the scheme, which the parser lowercases again) defeats the
idempotence check, and the second application changes the href from
`HTTP://s/Ax` to `HTTP://s/AAx`. -/
theorem c3_counterexample :
    (traverse { tags := [{ hosts := ["s".toList],
                           replace := [⟨"http://s/".toList, "HTTP://s/A".toList⟩] }],
                log := false }
      [⟨"http://s/x".toList, none⟩]).1 =
    [⟨"HTTP://s/Ax".toList, some ⟨"http://s/x".toList, "HTTP://s/Ax".toList⟩⟩] ∧
    (traverse { tags := [{ hosts := ["s".toList],
                           replace := [⟨"http://s/".toList, "HTTP://s/A".toList⟩] }],
                log := false }
      [⟨"HTTP://s/Ax".toList, some ⟨"http://s/x".toList, "HTTP://s/Ax".toList⟩⟩]).1.map
        ANode.href =
    ["HTTP://s/AAx".toList] ∧
    ¬ ("HTTP://s/AAx".toList = "HTTP://s/Ax".toList) := by
  refine ⟨by decide, by decide, by decide⟩

/-- Claim C3, amended.  First conjunct: after any pipeline application the
element is either untouched or its href equals the stored `is`.  Second
conjunct: a later pass over an element whose stored `is` equals its current
href is a no-op provided the href re-parses to itself (the written string is
parse-stable); without that proviso the second application may rewrite the
element, as the counterexample shows. -/
theorem c3_idempotence_amended :
    (∀ (logOn : Bool) (url : URLRec) (node : ANode) (tag : Tag),
      (modifyURL logOn url node tag).2.1 = node ∨
        (modifyURL logOn url node tag).2.1.docile =
          some ⟨serializeURL url, (modifyURL logOn url node tag).2.1.href⟩) ∧
    (∀ (logOn : Bool) (tags : List Tag) (hosts : List Str) (node : ANode) (d : Provenance),
      node.docile = some d → d.is = node.href → node.href ≠ [] →
      serializeURL (parseURL node.href) = node.href →
      (traverseNode logOn tags hosts node).1 = node) := by
  constructor
  · intro logOn url node tag
    by_cases h : docileSkip node url
    · left
      rw [modifyURL_skip logOn url node tag h]
    · right
      exact modifyURL_not_skipped logOn url node tag (by simpa using h)
  · intro logOn tags hosts node d hd hi hne hstable
    exact traverseNode_noop logOn tags hosts node d hd hi hne hstable

/-- Claim C3, witness for the amended theorem at a concrete input: a link
already rewritten to a parse-stable href is left untouched by a second
pass. -/
theorem c3_idempotence_amended_witness :
    serializeURL (parseURL "http://s/x?ref=A".toList) = "http://s/x?ref=A".toList ∧
    (traverseNode false [⟨["s".toList], [("ref".toList, "A".toList)], [], none⟩] ["s".toList]
      ⟨"http://s/x?ref=A".toList,
        some ⟨"http://s/x".toList, "http://s/x?ref=A".toList⟩⟩).1 =
    ⟨"http://s/x?ref=A".toList, some ⟨"http://s/x".toList, "http://s/x?ref=A".toList⟩⟩ :=
  ⟨by decide,
   c3_idempotence_amended.2 false [⟨["s".toList], [("ref".toList, "A".toList)], [], none⟩]
     ["s".toList]
     ⟨"http://s/x?ref=A".toList, some ⟨"http://s/x".toList, "http://s/x?ref=A".toList⟩⟩
     ⟨"http://s/x".toList, "http://s/x?ref=A".toList⟩ rfl rfl (by decide) (by decide)⟩

/-- Claim C4.  A tag whose `modify` function always throws still applies its
query merge and its `replace` rules and still writes the result back: the
shared URL state and the element state are exactly those produced by the same
tag without a `modify` function, so the URL used after the failed step is the
one as it stood before that step.  No exception propagates: the throw is
modelled by `Except.error`, caught inside `modifyURL`, which is a total
function — `traverse` always returns normally. -/
theorem c4_modify_failure_contained (logOn : Bool) (url : URLRec) (node : ANode)
    (tag : Tag) (f : URLRec → Except Str ModifyResult) (hm : tag.modify = some f)
    (hthrow : ∀ u, ∃ e, f u = Except.error e) :
    (modifyURL logOn url node tag).1 =
      (modifyURL logOn url node ⟨tag.hosts, tag.query, tag.replace, none⟩).1 ∧
    (modifyURL logOn url node tag).2.1 =
      (modifyURL logOn url node ⟨tag.hosts, tag.query, tag.replace, none⟩).2.1 :=
  modifyURL_throwing_eq logOn url node tag f hm hthrow

/-- Claim C4, witness at a concrete input: a tag with a throwing `modify`
rewrites the element exactly as the same tag without `modify`. -/
theorem c4_modify_failure_contained_witness :
    (modifyURL false (parseURL "http://s/x".toList) ⟨"http://s/x".toList, none⟩
      ⟨["s".toList], [("ref".toList, "A".toList)], [⟨"ref=A".toList, "ref=B".toList⟩],
        some fun _ => Except.error "boom".toList⟩).2.1 =
    (modifyURL false (parseURL "http://s/x".toList) ⟨"http://s/x".toList, none⟩
      ⟨["s".toList], [("ref".toList, "A".toList)], [⟨"ref=A".toList, "ref=B".toList⟩],
        none⟩).2.1 :=
  (c4_modify_failure_contained false (parseURL "http://s/x".toList)
    ⟨"http://s/x".toList, none⟩
    ⟨["s".toList], [("ref".toList, "A".toList)], [⟨"ref=A".toList, "ref=B".toList⟩],
      some fun _ => Except.error "boom".toList⟩
    (fun _ => Except.error "boom".toList) rfl (fun _ => ⟨"boom".toList, rfl⟩)).2

/-- Claim C5.  A link whose parsed host is not in the precomputed host filter
set (the union of every tag's `hosts`) passes through `traverse` with its
href attribute and its provenance record unchanged, whatever the tags
contain. -/
theorem c5_host_filtering (cfg : Config) (node : ANode)
    (h : (hostsOf cfg.tags).contains (parseURL node.href).host = false) :
    (traverse cfg [node]).1 = [node] := by
  unfold traverse
  dsimp only
  rw [List.foldl_cons, List.foldl_nil]
  unfold traverseFold
  dsimp only
  rw [traverseNode_host_missed cfg.log cfg.tags (hostsOf cfg.tags) node h]
  rfl

/-- Claim C5, witness at a concrete input: a tag for `other.example` never
touches a link on `x.example`. -/
theorem c5_host_filtering_witness :
    (hostsOf [⟨["other.example".toList], [("x".toList, "1".toList)], [], none⟩]).contains
        (parseURL "http://x.example/p".toList).host = false ∧
    (traverse { tags := [⟨["other.example".toList], [("x".toList, "1".toList)], [], none⟩],
                log := false }
      [⟨"http://x.example/p".toList, none⟩]).1 = [⟨"http://x.example/p".toList, none⟩] :=
  ⟨by decide,
   c5_host_filtering
     { tags := [⟨["other.example".toList], [("x".toList, "1".toList)], [], none⟩], log := false }
     ⟨"http://x.example/p".toList, none⟩ (by decide)⟩

/-- Claim C6.  The query merge `{...url.query, ...tag.query}` lets the tag
win on every key the tag holds and preserves keys only the link holds; run
through the whole pipeline, a link with query `a=1` and a tag with query
`{a: 2, b: 3}` yields the query string `a=2&b=3`. -/
theorem c6_query_merge_precedence :
    (∀ (q1 q2 : List (Str × Str)) (k v : Str),
      (q2.map Prod.fst).Nodup → List.lookup k q2 = some v →
      List.lookup k (spreadMerge q1 q2) = some v) ∧
    (∀ (q1 q2 : List (Str × Str)) (k : Str),
      List.lookup k q2 = none →
      List.lookup k (spreadMerge q1 q2) = List.lookup k q1) ∧
    (traverse { tags := [{ hosts := ["q.example".toList],
                           query := [("a".toList, "2".toList), ("b".toList, "3".toList)] }],
                log := false }
      [⟨"http://q.example/p?a=1".toList, none⟩]).1 =
    [⟨"http://q.example/p?a=2&b=3".toList,
      some ⟨"http://q.example/p?a=1".toList, "http://q.example/p?a=2&b=3".toList⟩⟩] :=
  ⟨lookup_spreadMerge_some, lookup_spreadMerge_none, by decide⟩

/-- Claim C6, witness at a concrete input: the tag value `2` wins for key `a`
in the merged query. -/
theorem c6_query_merge_precedence_witness :
    (([("a".toList, "2".toList), ("b".toList, "3".toList)].map Prod.fst).Nodup ∧
      List.lookup "a".toList [("a".toList, "2".toList), ("b".toList, "3".toList)] =
        some "2".toList) ∧
    List.lookup "a".toList
        (spreadMerge [("a".toList, "1".toList)]
          [("a".toList, "2".toList), ("b".toList, "3".toList)]) = some "2".toList :=
  ⟨⟨by decide, by decide⟩,
   c6_query_merge_precedence.1 [("a".toList, "1".toList)]
     [("a".toList, "2".toList), ("b".toList, "3".toList)] "a".toList "2".toList
     (by decide) (by decide)⟩

/-- Claim C7, counterexample.  The suppression check requires a truthy
(nonempty) stored `is`.  A tag whose `replace` rule maps the whole URL to the
empty string writes back an empty href with `is` = `""`; an href change
record whose new value `""` equals that stored `is` is then NOT suppressed —
`processMutation` reports a triggered re-traversal. -/
theorem c7_counterexample :
    (traverseNode false [{ hosts := ["s".toList], replace := [⟨"http://s/x".toList, []⟩] }]
      ["s".toList] ⟨"http://s/x".toList, none⟩).1 =
      ⟨[], some ⟨"http://s/x".toList, []⟩⟩ ∧
    mutationSkip ⟨MType.attributes, "href".toList, ⟨[], some ⟨"http://s/x".toList, []⟩⟩⟩ =
      false ∧
    (processMutation { tags := [], log := false }
      ⟨MType.attributes, "href".toList, ⟨[], some ⟨"http://s/x".toList, []⟩⟩⟩).1 = true := by
  refine ⟨by decide, by decide, by decide⟩

/-- Claim C7, amended.  An href attribute change record whose element carries
a provenance record with a NONEMPTY `is` equal to the current attribute value
never triggers a re-traversal: the engine's own write-back is suppressed.
(When the stored `is` is the empty string the record is re-traversed, as the
counterexample shows.) -/
theorem c7_self_mutation_suppression_amended (cfg : Config) (m : MutationRec)
    (d : Provenance) (hty : m.type = MType.attributes)
    (han : m.attributeName = "href".toList) (hdoc : m.target.docile = some d)
    (his : d.is = m.target.href) (hne : d.is ≠ []) :
    processMutation cfg m = (false, m.target, []) := by
  have hskip : mutationSkip m = true := by
    rcases m with ⟨ty, an, tg⟩
    dsimp only at hty han hdoc his
    subst hty
    subst han
    simp only [mutationSkip, hdoc]
    rw [if_neg (by simp)]
    rw [his]
    simp [beq_eq_false_iff_ne.mpr (his ▸ hne)]
  unfold processMutation
  rw [if_pos hskip]

/-- Claim C7, witness for the amended theorem at a concrete input. -/
theorem c7_self_mutation_suppression_amended_witness :
    "http://s/x?r=1".toList ≠ [] ∧
    processMutation { tags := [], log := false }
        ⟨MType.attributes, "href".toList,
          ⟨"http://s/x?r=1".toList, some ⟨"http://s/x".toList, "http://s/x?r=1".toList⟩⟩⟩ =
      (false, ⟨"http://s/x?r=1".toList, some ⟨"http://s/x".toList, "http://s/x?r=1".toList⟩⟩,
        []) :=
  ⟨by decide,
   c7_self_mutation_suppression_amended { tags := [], log := false }
     ⟨MType.attributes, "href".toList,
       ⟨"http://s/x?r=1".toList, some ⟨"http://s/x".toList, "http://s/x?r=1".toList⟩⟩⟩
     ⟨"http://s/x".toList, "http://s/x?r=1".toList⟩ rfl rfl rfl rfl (by decide)⟩

/-- Claim C8.  The `replace` entries are applied sequentially in declared
order over the running serialized URL string, each seeing the previous
result: `[{from: "http:", to: "https:"}, {from: "https://old", to:
"https://new"}]` on a link `http://old/path` yields `https://new/path`, both
through the whole pipeline and as the bare two-step fold. -/
theorem c8_replace_sequential :
    (traverse { tags := [{ hosts := ["old".toList],
                           replace := [⟨"http:".toList, "https:".toList⟩,
                                       ⟨"https://old".toList, "https://new".toList⟩] }],
                log := false }
      [⟨"http://old/path".toList, none⟩]).1 =
    [⟨"https://new/path".toList,
      some ⟨"http://old/path".toList, "https://new/path".toList⟩⟩] ∧
    replaceFirst "https://old".toList "https://new".toList
        (replaceFirst "http:".toList "https:".toList "http://old/path".toList) =
      "https://new/path".toList := by
  refine ⟨by decide, by decide⟩

/-- Claim C9, counterexample.  With `log` unset, a tag whose `modify` throws
still produces log output from `traverse`: the catch block calls the `Log`
module directly instead of the disabled instance logger `this.log`, so the
error event is emitted unconditionally. -/
theorem c9_counterexample :
    (traverse { tags := [{ hosts := ["s".toList],
                           modify := some fun _ => Except.error "modify failed".toList }],
                log := false }
      [⟨"http://s/x".toList, none⟩]).2 = [⟨true, "modify failed".toList⟩] ∧
    ¬ (traverse { tags := [{ hosts := ["s".toList],
                             modify := some fun _ => Except.error "modify failed".toList }],
                  log := false }
      [⟨"http://s/x".toList, none⟩]).2 = [] := by
  refine ⟨by decide, by decide⟩

/-- Claim C9, amended.  With `log` unset, every operation routed through the
instance logger is silent — `traverse` and the mutation callback emit no
event as long as no tag has a `modify` function; the one exception (not
covered by the claim as stated) is a custom-transform failure, which is
logged through the `Log` module directly and bypasses the disabled instance
logger, as the counterexample shows. -/
theorem c9_logging_amended (tags : List Tag) (nodes : List ANode)
    (ms : List MutationRec) (hm : ∀ t ∈ tags, t.modify = none) :
    (traverse { tags := tags, log := false } nodes).2 = [] ∧
    (observerCallback { tags := tags, log := false } ms).2 = [] := by
  constructor
  · have h := foldl_traverseFold_logs { tags := tags, log := false } rfl hm nodes
      ([], if ({ tags := tags, log := false } : Config).log then
        [⟨false, "Traversing DOM...".toList⟩] else [])
    simpa [traverse] using h
  · have h := foldl_observerFold_logs { tags := tags, log := false } rfl hm ms ([], [], false)
    simpa [observerCallback] using h

/-- Claim C9, witness for the amended theorem at a concrete input. -/
theorem c9_logging_amended_witness :
    (traverse { tags := [⟨["s".toList], [("ref".toList, "A".toList)], [], none⟩], log := false }
      [⟨"http://s/x".toList, none⟩]).2 = [] ∧
    (observerCallback { tags := [⟨["s".toList], [("ref".toList, "A".toList)], [], none⟩],
                        log := false }
      [⟨MType.childList, [], ⟨"http://s/x".toList, none⟩⟩]).2 = [] :=
  c9_logging_amended [⟨["s".toList], [("ref".toList, "A".toList)], [], none⟩]
    [⟨"http://s/x".toList, none⟩] [⟨MType.childList, [], ⟨"http://s/x".toList, none⟩⟩]
    (by intro t ht; rw [List.mem_singleton] at ht; subst ht; rfl)

/-- Claim C10.  Each `replace` entry substitutes at most the first occurrence
of its pattern: when the first occurrence of `sub` starts at position
`a.length`, exactly that occurrence is replaced and the remainder `b` — which
may contain further occurrences — is copied unchanged; a string without any
occurrence is returned unchanged. -/
theorem c10_replace_first_occurrence :
    (∀ (sub rep a b : Str), sub ≠ [] →
      (∀ i, i < a.length → sub.isPrefixOf ((a ++ sub ++ b).drop i) = false) →
      replaceFirst sub rep (a ++ sub ++ b) = a ++ rep ++ b) ∧
    (∀ (sub rep s : Str), containsSeq sub s = false → replaceFirst sub rep s = s) :=
  ⟨fun sub rep a b h1 h2 => replaceFirst_first_occ sub rep a b h1 h2,
   fun sub rep s h => replaceFirst_of_not_contains sub rep s h⟩

/-- Claim C10, witness at a concrete input: in `XYabZab` only the first `ab`
is replaced; the trailing `Zab` still contains the pattern and is copied
unchanged. -/
theorem c10_replace_first_occurrence_witness :
    containsSeq "ab".toList "Zab".toList = true ∧
    replaceFirst "ab".toList "cd".toList ("XY".toList ++ "ab".toList ++ "Zab".toList) =
      "XY".toList ++ "cd".toList ++ "Zab".toList :=
  ⟨by decide,
   c10_replace_first_occurrence.1 "ab".toList "cd".toList "XY".toList "Zab".toList
     (by decide) (by decide)⟩

end Affiliate
